import Mathlib

/-!
Verification development for the goja object model (`object.go`,
`builtin_weakmap.go`): a shallow embedding of the property protocol
(get / put / defineOwnProperty / delete / setProto), the enumeration
engine and the weak-collection bookkeeping, together with theorems
settling the specification claims.

Go pointers to `Object` are modelled as numeric object ids into an
explicit heap (an association list).  The Go `Value` interface is
modelled by the inductive `Value`; a Go `nil` interface is modelled by
`Option.none` at the positions where the source can return it, while a
typed-nil `*Object` stored inside a non-nil interface (which the source
produces when `getOwnPropStr` returns a nil prototype for the
"__proto__" pseudo-key) is the distinguished constructor `Value.objNil`.
JavaScript numbers are represented by `Int`; no claim depends on
floating-point behaviour.
-/

namespace Goja

/-- A JavaScript value as stored by the runtime (`Value` interface in the
source).  `obj id` is a pointer to a heap object; `objNil` is a typed-nil
`*Object` wrapped in a non-nil interface value. -/
inductive Value where
  | undefined
  | null
  | boolV (b : Bool)
  | numV (n : Int)
  | strV (s : String)
  | obj (id : Nat)
  | objNil
deriving DecidableEq, Repr

/-- A reified property (`valueProperty` in the source): value or accessor
pair plus the three attribute bits.  `value` is `none` when the Go field
holds a nil interface; `getterFunc`/`setterFunc` are object ids of the
accessor functions (`none` = nil `*Object`). -/
structure ValueProperty where
  value : Option Value
  writable : Bool
  enumerable : Bool
  configurable : Bool
  accessor : Bool
  getterFunc : Option Nat
  setterFunc : Option Nat
deriving DecidableEq, Repr

/-- Modelled from the spec: `valueProperty.isWritable` is declared outside
`src/` (value.go); an assignment may proceed when the property is a
writable data property or an accessor with a setter ("if an own data
property exists, overwrite in place unless non-writable ...; if an own
accessor exists, invoke its setter"). -/
def ValueProperty.isWritable (p : ValueProperty) : Bool :=
  p.writable || p.setterFunc.isSome

/-- One entry of an object's `values` map: either a plain stored value
(implicitly writable/enumerable/configurable) or a reified
`valueProperty`. -/
inductive SlotVal where
  | plain (v : Value)
  | prop (p : ValueProperty)
deriving DecidableEq, Repr

/-- Per-object storage (`baseObject` in the source): class tag, prototype
link, extensibility flag, the string-keyed `values` map (as an
association list) and the insertion-ordered `propNames`. -/
structure ObjData where
  className : String
  prototype : Option Nat
  extensible : Bool
  values : List (String × SlotVal)
  propNames : List String
deriving DecidableEq, Repr

/-- The heap: object id to object data.  A dangling id (never produced by
the source, where `*Object` pointers always dereference) behaves as an
absent object. -/
abbrev Heap : Type := List (Nat × ObjData)

/-- Association-list lookup (Go map read). -/
def assocFind {α β : Type} [DecidableEq α] : List (α × β) → α → Option β
  | [], _ => none
  | (k', v) :: rest, k => if k' = k then some v else assocFind rest k

/-- Remove every binding of a key (Go map delete). -/
def assocErase {α β : Type} [DecidableEq α] : List (α × β) → α → List (α × β)
  | [], _ => []
  | (k', v) :: rest, k =>
    if k' = k then assocErase rest k else (k', v) :: assocErase rest k

/-- Overwrite or insert a binding (Go map write). -/
def assocPut {α β : Type} [DecidableEq α] (l : List (α × β)) (k : α) (v : β) :
    List (α × β) :=
  (k, v) :: assocErase l k

/-- Remove the first occurrence of a string from a list (the
`propNames` compaction loop of `baseObject._delete`, which breaks after
the first hit). -/
def eraseFirstStr : List String → String → List String
  | [], _ => []
  | n :: rest, k => if n = k then rest else n :: eraseFirstStr rest k

def lookupObj (h : Heap) (oid : Nat) : Option ObjData :=
  assocFind h oid

def updateObj (h : Heap) (oid : Nat) (od : ObjData) : Heap :=
  assocPut h oid od

def lookupVal (vals : List (String × SlotVal)) (k : String) : Option SlotVal :=
  assocFind vals k

/-- The `__proto__` pseudo-key constant of the source. -/
def protoKey : String := "__proto__"

/-- A prototype link as a `Value` (`return o.prototype` in the source
converts the possibly-nil `*Object` into an interface value; a nil
pointer becomes a typed-nil, non-nil interface). -/
def protoToValue : Option Nat → Value
  | some i => .obj i
  | none => .objNil

def protoOf (h : Heap) (oid : Nat) : Option Nat :=
  (lookupObj h oid).bind ObjData.prototype

def propNamesOf (h : Heap) (oid : Nat) : List String :=
  match lookupObj h oid with
  | some od => od.propNames
  | none => []

/-- `baseObject.getOwnPropStr` on object data: the stored slot, or the
prototype link for the `__proto__` pseudo-key, else Go nil. -/
def getOwnSlot (od : ObjData) (name : String) : Option SlotVal :=
  match lookupVal od.values name with
  | some s => some s
  | none => if name = protoKey then some (.plain (protoToValue od.prototype)) else none

/-- `baseObject.getOwnPropStr` over the heap.  Outer `none` = dangling
object id (unreachable in Go); inner `none` = Go nil result. -/
def getOwnPropStr (h : Heap) (oid : Nat) (name : String) : Option (Option SlotVal) :=
  match lookupObj h oid with
  | none => none
  | some od => some (getOwnSlot od name)

/-- `baseObject.hasOwnPropertyStr`: whether the `values` map stores the
name (the `__proto__` pseudo-key is not consulted here). -/
def hasOwnPropertyStr (h : Heap) (oid : Nat) (name : String) : Option Bool :=
  match lookupObj h oid with
  | none => none
  | some od => some (lookupVal od.values name).isSome

/-- `baseObject.getPropStr`: own slot first, else recurse along the
prototype chain.  `fuel` bounds the number of prototype hops; `none`
means dangling id or fuel exhaustion (neither occurs on the acyclic
heaps Go maintains). -/
def getPropStr (h : Heap) : Nat → Nat → String → Option (Option SlotVal)
  | fuel, oid, name =>
    match lookupObj h oid with
    | none => none
    | some od =>
      match getOwnSlot od name with
      | some slot => some (some slot)
      | none =>
        match od.prototype with
        | none => some none
        | some pid =>
          match fuel with
          | 0 => none
          | Nat.succ f => getPropStr h f pid name

/-- Result of `baseObject.getStr`.  `val` is an in-model value (possibly
Go nil); `getterCall` records that a found accessor property's getter is
invoked with the original receiver (the getter's own effect is outside
the model). -/
inductive GetOutcome where
  | val (v : Option Value)
  | getterCall (g : Option Nat)
deriving DecidableEq, Repr

/-- `baseObject.getStr`: resolve through the prototype chain, then
dereference a `valueProperty` (`p.get(o.val)` — data properties yield
their stored value, accessor properties invoke the getter). -/
def getStr (h : Heap) (fuel : Nat) (oid : Nat) (name : String) : Option GetOutcome :=
  match getPropStr h fuel oid name with
  | none => none
  | some none => some (.val none)
  | some (some (.plain w)) => some (.val (some w))
  | some (some (.prop p)) =>
    if p.accessor then some (.getterCall p.getterFunc) else some (.val p.value)

/-- Result of `baseObject.setProto`.  Every constructor carries the heap
the operation returns with; the two error constructors always carry the
unmodified input heap. -/
inductive SetProtoResult where
  | success (h : Heap)
  | notExtensibleError (h : Heap)
  | cyclicError (h : Heap)
deriving DecidableEq, Repr

/-- The cycle-check walk of `baseObject.setProto`
(`for p := proto; p != nil; p = p.self.proto()`): does the chain starting
at `start` contain `tgt`?  `none` = fuel exhausted. -/
def protoChainHas (h : Heap) : Nat → Option Nat → Nat → Option Bool
  | _, none, _ => some false
  | 0, some _, _ => none
  | Nat.succ f, some p, tgt =>
    if p = tgt then some true else protoChainHas h f (protoOf h p) tgt

/-- `baseObject.setProto` given the receiver's data: no-op success when
the new prototype is already current (pointer identity via `SameAs`),
type error when not extensible, cyclic error when the new prototype's
chain contains the receiver, else commit the link. -/
def setProtoCore (h : Heap) (oid : Nat) (od : ObjData) (fuel : Nat)
    (proto : Option Nat) : Option SetProtoResult :=
  if od.prototype = proto then some (.success h)
  else if od.extensible = false then some (.notExtensibleError h)
  else
    match protoChainHas h fuel proto oid with
    | none => none
    | some true => some (.cyclicError h)
    | some false => some (.success (updateObj h oid { od with prototype := proto }))

/-- `baseObject.setProto` over the heap. -/
def setProto (h : Heap) (oid : Nat) (fuel : Nat) (proto : Option Nat) :
    Option SetProtoResult :=
  match lookupObj h oid with
  | none => none
  | some od => setProtoCore h oid od fuel proto

/-- Result of `baseObject.putStr`.  `ok` = the value was stored as an own
property; `rejected` = a `typeErrorResult(throw, ...)` path (raises when
`throw`, silently returns otherwise — either way the heap is the
unmodified input, which every constructor carries); `setterCall` = an
accessor's setter is invoked (its effect is outside the model);
`protoSet` / `protoIgnored` / `protoPanic` = the `__proto__` pseudo-key
branch (commit, silent ignore of a non-object value, or panic on a
`setProto` failure). -/
inductive PutResult where
  | ok (h : Heap)
  | rejected (h : Heap)
  | setterCall (h : Heap) (setter : Option Nat)
  | protoSet (h : Heap)
  | protoIgnored (h : Heap)
  | protoPanic
deriving DecidableEq, Repr

/-- The store executed by the fall-through tail of `putStr`
(`o.values[name] = val; o.propNames = append(o.propNames, name)`). -/
def addNewProp (h : Heap) (oid : Nat) (od : ObjData) (name : String) (v : Value) :
    Heap :=
  updateObj h oid
    { od with
      values := assocPut od.values name (.plain v)
      propNames := od.propNames ++ [name] }

/-- The `__proto__` branch of `putStr`: run `setProto` and panic on a
non-nil error. -/
def putProtoResult (h : Heap) (oid : Nat) (od : ObjData) (fuel : Nat)
    (proto : Option Nat) : Option PutResult :=
  match setProtoCore h oid od fuel proto with
  | none => none
  | some (.success h') => some (.protoSet h')
  | some (.notExtensibleError _) => some .protoPanic
  | some (.cyclicError _) => some .protoPanic

/-- `baseObject.putStr`.  Mirrors the source branch for branch: an
existing own `valueProperty` is overwritten in place via `prop.set`
unless non-writable; an existing own plain value is overwritten; the
`__proto__` pseudo-key mutates the prototype link; otherwise the
prototype chain is consulted and the value is stored as a new own
property unless an inherited property is non-writable, an inherited
accessor's setter takes over, or (with no inherited property at all) the
receiver is not extensible. -/
def putStr (h : Heap) (fuel : Nat) (oid : Nat) (name : String) (v : Value)
    (throw : Bool) : Option PutResult :=
  match lookupObj h oid with
  | none => none
  | some od =>
    match lookupVal od.values name with
    | some (.prop p) =>
      if p.isWritable then
        if p.accessor then some (.setterCall h p.setterFunc)
        else
          some (.ok (updateObj h oid
            { od with values := assocPut od.values name (.prop { p with value := some v }) }))
      else some (.rejected h)
    | some (.plain _) =>
      some (.ok (updateObj h oid
        { od with values := assocPut od.values name (.plain v) }))
    | none =>
      if name = protoKey then
        match v with
        | .null => putProtoResult h oid od fuel none
        | .obj pid => putProtoResult h oid od fuel (some pid)
        | _ => some (.protoIgnored h)
      else
        match (match od.prototype with
               | some pid => getPropStr h fuel pid name
               | none => some none) with
        | none => none
        | some (some (.prop p)) =>
          if p.isWritable then
            if p.accessor then some (.setterCall h p.setterFunc)
            else some (.ok (addNewProp h oid od name v))
          else some (.rejected h)
        | some (some (.plain _)) => some (.ok (addNewProp h oid od name v))
        | some none =>
          if od.extensible then some (.ok (addNewProp h oid od name v))
          else some (.rejected h)

/-- `baseObject.checkDelete`: a plain value is deletable; a reified
property only when configurable. -/
def checkDelete (slot : SlotVal) : Bool :=
  match slot with
  | .plain _ => true
  | .prop p => p.configurable

/-- `baseObject._delete`: remove from the `values` map and drop the first
matching entry of `propNames`. -/
def baseDelete (od : ObjData) (name : String) : ObjData :=
  { od with
    values := assocErase od.values name
    propNames := eraseFirstStr od.propNames name }

/-- `baseObject.deleteStr`: vacuous success when absent; reject a
non-configurable property; otherwise remove.  Returns the success flag
and the resulting heap. -/
def deleteStr (h : Heap) (oid : Nat) (name : String) (throw : Bool) :
    Option (Bool × Heap) :=
  match lookupObj h oid with
  | none => none
  | some od =>
    match lookupVal od.values name with
    | some slot =>
      if checkDelete slot then some (true, updateObj h oid (baseDelete od name))
      else some (false, h)
    | none => some (true, h)

/-- `baseObject._put`: store the raw value, appending to `propNames`
only when the key was absent. -/
def basePut (h : Heap) (oid : Nat) (name : String) (v : Value) : Heap :=
  match lookupObj h oid with
  | none => h
  | some od =>
    updateObj h oid
      { od with
        values := assocPut od.values name (.plain v)
        propNames :=
          if (lookupVal od.values name).isSome then od.propNames
          else od.propNames ++ [name] }

/-- The tri-state attribute flag of `PropertyDescriptor` (`FLAG_NOT_SET`,
`FLAG_FALSE`, `FLAG_TRUE`; declared outside `src/`). -/
inductive Flag where
  | notSet
  | flagFalse
  | flagTrue
deriving DecidableEq, Repr

/-- Modelled from the spec: `Flag.Bool()` is declared outside `src/`; a
flag contributes `true` only when explicitly set to true. -/
def Flag.toBool : Flag → Bool
  | .flagTrue => true
  | _ => false

/-- `PropertyDescriptor`: the requested attributes for
`defineOwnProperty`.  `value`, `getter` and `setter` are `none` when the
Go field holds a nil interface. -/
structure PropertyDescriptor where
  value : Option Value
  writable : Flag
  configurable : Flag
  enumerable : Flag
  getter : Option Value
  setter : Option Value
deriving DecidableEq, Repr

/-- The `descr.Getter.(*Object)` / `descr.Setter.(*Object)` type
assertions at the top of `_defineOwnProperty` (nil on failure). -/
def descrAccessorObj : Option Value → Option Nat
  | some (.obj i) => some i
  | _ => none

/-- Modelled from the spec: strict same-value comparison
(`Value.SameAs`, declared outside `src/`) — identity on objects,
structural equality on primitives; comparison with a Go nil interface is
false. -/
def sameVal (v : Value) (w : Option Value) : Bool :=
  match w with
  | some w' => v == w'
  | none => false

/-- The `descr.Value != nil && !descr.Value.SameAs(existing.value)` test
of `_defineOwnProperty`. -/
def valueMismatch (descr : PropertyDescriptor) (existing : ValueProperty) : Bool :=
  match descr.value with
  | some dv => !sameVal dv existing.value
  | none => false

/-- The permissive wrap of a plain existing value inside
`_defineOwnProperty` ("a plain value is equivalent to a fully-permissive
descriptor"). -/
def reifySlot : SlotVal → ValueProperty
  | .prop p => p
  | .plain w =>
    { value := some w
      writable := true
      enumerable := true
      configurable := true
      accessor := false
      getterFunc := none
      setterFunc := none }

/-- The zero `valueProperty` allocated for a brand-new property
(`existing = &valueProperty{}`). -/
def emptyProp : ValueProperty :=
  { value := none
    writable := false
    enumerable := false
    configurable := false
    accessor := false
    getterFunc := none
    setterFunc := none }

/-- Result of `_defineOwnProperty`: the new slot on success, a
`typeErrorResult(throw, ...)` rejection, or a panic raised by the
modelled `propGetter`/`propSetter` conversion. -/
inductive DefineOutcome where
  | ok (slot : SlotVal)
  | rejected
  | accessorArgError
deriving DecidableEq, Repr

/-- Result of converting a descriptor's getter/setter value into a
function object. -/
inductive AccConv where
  | absent
  | fn (f : Option Nat)
  | bad
deriving DecidableEq, Repr

/-- Modelled from the spec: `propGetter`/`propSetter` are declared
outside `src/`; they turn a descriptor's getter/setter value into a
function object, raising a type mismatch when it is neither undefined
nor callable.  Callability is outside this model, so every object value
is accepted. -/
def convAccessor : Option Value → AccConv
  | none => .absent
  | some .undefined => .fn none
  | some (.obj i) => .fn (some i)
  | some _ => .bad

/-- The apply phase of `_defineOwnProperty` (everything after the
rejection checks): the complete-permissive-data fast path stores the raw
value, otherwise the explicitly present attributes overwrite the prior
ones, a supplied value clears the accessor pair, supplied accessors
clear the value, and a data property with no value defaults to
undefined. -/
def applyDescriptor (existing : ValueProperty) (descr : PropertyDescriptor) :
    DefineOutcome :=
  if descr.writable = .flagTrue ∧ descr.enumerable = .flagTrue ∧
      descr.configurable = .flagTrue ∧ descr.value.isSome then
    match descr.value with
    | some dv => .ok (.plain dv)
    | none => .rejected
  else
    match convAccessor descr.getter, convAccessor descr.setter with
    | .bad, _ => .accessorArgError
    | _, .bad => .accessorArgError
    | gr, sr =>
      let a : ValueProperty :=
        { existing with
          writable := if descr.writable = .notSet then existing.writable
                      else descr.writable.toBool
          enumerable := if descr.enumerable = .notSet then existing.enumerable
                        else descr.enumerable.toBool
          configurable := if descr.configurable = .notSet then existing.configurable
                          else descr.configurable.toBool }
      let b : ValueProperty :=
        match descr.value with
        | some dv => { a with value := some dv, getterFunc := none, setterFunc := none }
        | none => a
      let c : ValueProperty :=
        if descr.value.isSome ∨ descr.writable ≠ .notSet then
          { b with accessor := false }
        else b
      let d : ValueProperty :=
        match gr with
        | .fn g => { c with getterFunc := g, value := none, accessor := true }
        | _ => c
      let e : ValueProperty :=
        match sr with
        | .fn s => { d with setterFunc := s, value := none, accessor := true }
        | _ => d
      let f : ValueProperty :=
        if e.accessor = false ∧ e.value = none then { e with value := some .undefined }
        else e
      .ok (.prop f)

/-- `baseObject._defineOwnProperty`: the §4.1.1 validation algorithm.
`existingValue` is the current slot (`nil` = absent); rejection checks
mirror the source's sequential `goto Reject` tests, then the descriptor
is applied. -/
def _defineOwnProperty (extensible : Bool) (existingValue : Option SlotVal)
    (descr : PropertyDescriptor) : DefineOutcome :=
  let getterObj := descrAccessorObj descr.getter
  let setterObj := descrAccessorObj descr.setter
  match existingValue with
  | none =>
    if extensible = false then .rejected
    else applyDescriptor emptyProp descr
  | some ev =>
    let existing := reifySlot ev
    if existing.configurable = false ∧ descr.configurable = .flagTrue then .rejected
    else if existing.configurable = false ∧ descr.enumerable ≠ .notSet ∧
        descr.enumerable.toBool ≠ existing.enumerable then .rejected
    else if (existing.accessor = true ∧ descr.value.isSome) ∨
        (existing.accessor = false ∧ (getterObj.isSome ∨ setterObj.isSome)) then
      if existing.configurable = false then .rejected
      else applyDescriptor existing descr
    else if existing.accessor = false then
      if existing.configurable = false ∧ existing.writable = false ∧
          (descr.writable = .flagTrue ∨ valueMismatch descr existing = true) then .rejected
      else applyDescriptor existing descr
    else
      if existing.configurable = false ∧
          ((descr.getter.isSome ∧ existing.getterFunc ≠ getterObj) ∨
            (descr.setter.isSome ∧ existing.setterFunc ≠ setterObj)) then .rejected
      else applyDescriptor existing descr

/-- The enumerability marker of `propIterItem`
(`_ENUM_UNKNOWN` / `_ENUM_FALSE` / `_ENUM_TRUE`). -/
inductive EnumFlag where
  | unknown
  | efalse
  | etrue
deriving DecidableEq, Repr

/-- One item produced by the enumeration engine (`propIterItem`). -/
structure PropIterItem where
  name : String
  value : Option SlotVal
  enumerable : EnumFlag
deriving DecidableEq, Repr

/-- The live `i.o.values[name]` read of `objectPropIter.next`. -/
def lookupSlot (h : Heap) (oid : Nat) (name : String) : Option SlotVal :=
  (lookupObj h oid).bind fun od => lookupVal od.values name

/-- The own-key loop of `objectPropIter.next`: walk the snapshot of
`propNames`, yielding each name whose property still exists in the live
`values` map. -/
def ownItems (h : Heap) (oid : Nat) : List String → List PropIterItem
  | [] => []
  | n :: rest =>
    match lookupSlot h oid n with
    | some slot => { name := n, value := some slot, enumerable := .unknown } :: ownItems h oid rest
    | none => ownItems h oid rest

/-- The full stream of `objectPropIter` items: own snapshot names first,
then (in the recursive case) the chained `_enumerate` of the prototype,
which takes a fresh snapshot of the prototype's current `propNames` at
the moment of the hop.  `fuel` bounds prototype hops. -/
def runBase (h : Heap) (recursive : Bool) : Nat → Nat → List String → List PropIterItem
  | 0, oid, names => ownItems h oid names
  | Nat.succ f, oid, names =>
    ownItems h oid names ++
      (if recursive then
        match protoOf h oid with
        | some pid => runBase h recursive f pid (propNamesOf h pid)
        | none => []
      else [])

/-- The enumerability skip test of `propFilterIter.next`: with `all`
unset, drop items flagged non-enumerable and items whose live value is a
non-enumerable `valueProperty`. -/
def filterSkip (all : Bool) (item : PropIterItem) : Bool :=
  !all &&
    (item.enumerable == .efalse ||
      (item.enumerable == .unknown &&
        (match item.value with
         | some (.prop p) => !p.enumerable
         | _ => false)))

/-- `propFilterIter.next` over a stream: names already seen are skipped
(shadowing), every fresh name is recorded in the seen set before the
enumerability filter runs. -/
def filterStream (all : Bool) : List String → List PropIterItem → List PropIterItem
  | _, [] => []
  | seen, item :: rest =>
    if item.name ∈ seen then filterStream all seen rest
    else if filterSkip all item then filterStream all (item.name :: seen) rest
    else item :: filterStream all (item.name :: seen) rest

/-- The seen-set accumulated by `filterStream` after consuming a
stream. -/
def seenAfter : List String → List PropIterItem → List String
  | seen, [] => seen
  | seen, item :: rest =>
    if item.name ∈ seen then seenAfter seen rest
    else seenAfter (item.name :: seen) rest

/-- The state captured when `baseObject.enumerate` produces a sequence:
the receiver, the snapshot of its `propNames` taken by `_enumerate`, the
two flags, and the filter's seen-set. -/
structure FilterIter where
  oid : Nat
  snapshot : List String
  recursive : Bool
  all : Bool
  seen : List String
deriving DecidableEq, Repr

/-- `baseObject.enumerate`: produce a fresh sequence whose own-key order
is a snapshot of the receiver's current `propNames`. -/
def mkEnum (h : Heap) (oid : Nat) (all recursive : Bool) : FilterIter :=
  { oid := oid
    snapshot := propNamesOf h oid
    recursive := recursive
    all := all
    seen := [] }

/-- Drain a produced sequence against the heap current at consumption
time (property values and prototype snapshots are read live, as in
`objectPropIter.next`). -/
def consume (h : Heap) (fuel : Nat) (st : FilterIter) : List PropIterItem :=
  filterStream st.all st.seen (runBase h st.recursive fuel st.oid st.snapshot)

/-- Producing and fully draining one `enumerate` sequence on an
unchanging heap. -/
def enumerateRun (h : Heap) (fuel : Nat) (oid : Nat) (all recursive : Bool) :
    List PropIterItem :=
  consume h fuel (mkEnum h oid all recursive)

/-- `weakCollections.add`: idempotent append of an interested collection
(the source scans `colls` and returns early on a hit). -/
def wcAdd (l : List Nat) (c : Nat) : List Nat :=
  if c ∈ l then l else l ++ [c]

/-- The weak-reference state: each object's `weakColls` registry pointer
(`none` = nil, lazily created), each registry's interest list and the
per-collection `weakMap.data` storage keyed by registry token.  The
`nextReg`/`nextObj` counters model fresh allocation of registries and of
wrapper objects. -/
structure WeakState where
  objWeak : List (Nat × Option Nat)
  regs : List (Nat × List Nat)
  nextReg : Nat
  maps : List (Nat × List (Nat × Value))
  nextObj : Nat
deriving DecidableEq, Repr

/-- `Object.getWeakCollRefs`: return the object's registry, lazily
allocating a fresh one (with its finalizer) on first use.  `none` =
dangling object id (unreachable in Go). -/
def getWeakCollRefs (st : WeakState) (keyId : Nat) : Option (WeakState × Nat) :=
  match assocFind st.objWeak keyId with
  | none => none
  | some (some r) => some (st, r)
  | some none =>
    let r := st.nextReg
    some
      ({ st with
          objWeak := assocPut st.objWeak keyId (some r)
          regs := assocPut st.regs r []
          nextReg := r + 1 }, r)

/-- `weakMap.set`: obtain/create the key's registry, store the value
under its token in this map's data, then register interest. -/
def wmSet (st : WeakState) (wmId : Nat) (keyId : Nat) (v : Value) :
    Option WeakState :=
  match getWeakCollRefs st keyId with
  | none => none
  | some (st1, r) =>
    let data := (assocFind st1.maps wmId).getD []
    let st2 := { st1 with maps := assocPut st1.maps wmId (assocPut data r v) }
    some { st2 with
           regs := assocPut st2.regs r (wcAdd ((assocFind st2.regs r).getD []) wmId) }

/-- `weakMap.get`: nil when the key never had a registry, else the
stored value for its token (`none` in the inner option = nil). -/
def wmGet (st : WeakState) (wmId : Nat) (keyId : Nat) : Option (Option Value) :=
  match assocFind st.objWeak keyId with
  | none => none
  | some none => some none
  | some (some r) => some (assocFind ((assocFind st.maps wmId).getD []) r)

/-- Outcome of `Runtime.weakMapProto_set`. -/
inductive WMProtoSetOutcome where
  | done (st : WeakState)
  | typeErrorKey
  | missingKeyObject
deriving DecidableEq, Repr

/-- Modelled from the spec: `Runtime.toObject` is declared outside
`src/`; it raises a type mismatch for a non-object-coercible value
(null/undefined) and wraps any other primitive in a fresh
primitive-wrapper object of the appropriate kind.  Returns the object id
(allocating a wrapper when needed). -/
def toObjectKey (st : WeakState) : Value → Option (WeakState × Nat)
  | .obj i => some (st, i)
  | .objNil => none
  | .null => none
  | .undefined => none
  | _ =>
    let kid := st.nextObj
    some ({ st with objWeak := assocPut st.objWeak kid none, nextObj := kid + 1 }, kid)

/-- `Runtime.weakMapProto_set` for a receiver that is a `weakMapObject`:
the key argument goes through `r.toObject` and the entry is stored via
`weakMap.set`. -/
def weakMapProtoSet (st : WeakState) (wmId : Nat) (keyArg : Value) (valArg : Value) :
    WMProtoSetOutcome :=
  match keyArg with
  | .null => .typeErrorKey
  | .undefined => .typeErrorKey
  | key =>
    match toObjectKey st key with
    | none => .typeErrorKey
    | some (st1, kid) =>
      match wmSet st1 wmId kid valArg with
      | some st2 => .done st2
      | none => .missingKeyObject

/-! Concrete states used by counterexamples and witnesses. -/

/-- A plain extensible object with no properties. -/
def exHeapEmpty : Heap := [(0, ⟨"Object", none, true, [], []⟩)]

/-- A non-extensible object `0` whose prototype `1` holds a plain
(hence writable) data property `"k"`. -/
def exHeapNonExt : Heap :=
  [(0, ⟨"Object", some 1, false, [], []⟩),
   (1, ⟨"Object", none, true, [("k", .plain (.numV 1))], ["k"]⟩)]

/-- `exHeapNonExt` after `putStr` stored `"k" ↦ 2` on the non-extensible
object `0`. -/
def exHeapNonExtAfter : Heap :=
  [(0, ⟨"Object", some 1, false, [("k", .plain (.numV 2))], ["k"]⟩),
   (1, ⟨"Object", none, true, [("k", .plain (.numV 1))], ["k"]⟩)]

/-- A three-object prototype chain `0 → 1 → 2` (A→B→C), every object
extensible. -/
def exHeapChain : Heap :=
  [(0, ⟨"A", some 1, true, [], []⟩),
   (1, ⟨"B", some 2, true, [], []⟩),
   (2, ⟨"C", none, true, [], []⟩)]

/-- An object `0` with prototype `1` and no stored properties, for the
`__proto__` pseudo-key observations. -/
def exHeapProto : Heap :=
  [(0, ⟨"Object", some 1, true, [], []⟩),
   (1, ⟨"Object", none, true, [], []⟩)]

/-- An object with one enumerable own property `"a"`. -/
def exHeapEnum : Heap := [(0, ⟨"Object", none, true, [("a", .plain (.numV 1))], ["a"]⟩)]

/-- `exHeapEnum` after `deleteStr` removed `"a"`. -/
def exHeapEnumDel : Heap := [(0, ⟨"Object", none, true, [], []⟩)]

/-- `exHeapEnum` after `putStr` redefined `"a"` to `2`. -/
def exHeapEnumRedef : Heap :=
  [(0, ⟨"Object", none, true, [("a", .plain (.numV 2))], ["a"]⟩)]

/-- A non-configurable, non-writable, enumerable data property holding
the value `1`. -/
def exFrozenProp : ValueProperty :=
  ⟨some (.numV 1), false, true, false, false, none, none⟩

/-- `exHeapEmpty` after `putStr` stored `"x" ↦ 7`. -/
def exHeapEmptyAfter : Heap :=
  [(0, ⟨"Object", none, true, [("x", .plain (.numV 7))], ["x"]⟩)]

/-- An object `0` whose prototype `1` carries the frozen data property
`"k"` (non-writable, non-configurable). -/
def exHeapFrozenShadow : Heap :=
  [(0, ⟨"Object", some 1, true, [], []⟩),
   (1, ⟨"Object", none, true, [("k", .prop ⟨some (.numV 1), false, true, false, false, none, none⟩)], ["k"]⟩)]

/-- A weak state with one key object `3` (no registry yet) and one empty
weak map `0`. -/
def exWeak : WeakState := ⟨[(3, none)], [], 0, [(0, [])], 4⟩

/-- `exWeak` after `weakMap.set` stored a value for key `3`: registry
`0` was allocated, the entry sits under its token, the map registered
its interest. -/
def exWeakAfter : WeakState :=
  ⟨[(3, some 0)], [(0, [0])], 1, [(0, [(0, .strV "v")])], 4⟩

/-- A weak state with no key objects and one empty weak map `0`, for the
primitive-key `weakMapProto_set` run. -/
def exWeakPrim : WeakState := ⟨[], [], 0, [(0, [])], 1⟩

/-- `exWeakPrim` after `weakMapProto_set` with the primitive key `5`:
a fresh wrapper object `1` was allocated and an entry was stored under
its fresh registry `0`. -/
def exWeakPrimAfter : WeakState :=
  ⟨[(1, some 0)], [(0, [0])], 1, [(0, [(0, .strV "x")])], 2⟩

/-! Association-list laws shared by the proofs. -/

theorem assocFind_put_self {α β : Type} [DecidableEq α] (l : List (α × β)) (k : α)
    (v : β) : assocFind (assocPut l k v) k = some v := by
  simp [assocPut, assocFind]

theorem assocFind_erase_ne {α β : Type} [DecidableEq α] (l : List (α × β))
    (k k' : α) (h : k' ≠ k) : assocFind (assocErase l k) k' = assocFind l k' := by
  induction l with
  | nil => rfl
  | cons hd tl ih =>
    obtain ⟨a, b⟩ := hd
    by_cases hak : a = k
    · subst hak
      simp [assocErase, assocFind, ih, Ne.symm h]
    · by_cases hak' : a = k'
      · subst hak'
        simp [assocErase, assocFind, hak]
      · simp [assocErase, assocFind, hak, hak', ih]

theorem assocFind_put_ne {α β : Type} [DecidableEq α] (l : List (α × β))
    (k k' : α) (v : β) (h : k' ≠ k) :
    assocFind (assocPut l k v) k' = assocFind l k' := by
  simp [assocPut, assocFind, Ne.symm h, assocFind_erase_ne l k k' h]

theorem mem_wcAdd_self (l : List Nat) (c : Nat) : c ∈ wcAdd l c := by
  by_cases hmem : c ∈ l <;> simp [wcAdd, hmem]

/-!
C4 — `setPrototype(o, p)` succeeds as a no-op when `p` is already the
current prototype, fails with an extensibility violation on a
non-extensible object, fails with a cyclic-prototype violation when the
chain from `p` reaches `o`, and leaves the prototype link unchanged on
any failure (both error constructors carry the unmodified input heap).
-/

/-- C4: the no-op, non-extensible and cyclic cases of `setProto`; each
failure returns the input heap `h` itself, so the prototype link is
unchanged. -/
theorem c4_setProto_cases (h : Heap) (oid fuel : Nat) (p : Option Nat)
    (od : ObjData) (hod : lookupObj h oid = some od) :
    (p = od.prototype → setProto h oid fuel p = some (.success h)) ∧
    (p ≠ od.prototype → od.extensible = false →
      setProto h oid fuel p = some (.notExtensibleError h)) ∧
    (p ≠ od.prototype → od.extensible = true →
      protoChainHas h fuel p oid = some true →
      setProto h oid fuel p = some (.cyclicError h)) := by
  refine ⟨?_, ?_, ?_⟩
  · intro hp
    simp [setProto, hod, setProtoCore, hp]
  · intro hp hext
    simp [setProto, hod, setProtoCore, Ne.symm hp, hext]
  · intro hp hext hchain
    simp [setProto, hod, setProtoCore, Ne.symm hp, hext, hchain]

/-- C4 witness: completing the chain A→B→C by setting C's prototype to A
is rejected as cyclic, with the heap unchanged. -/
theorem c4_setProto_cases_witness :
    setProto exHeapChain 2 10 (some 0) = some (.cyclicError exHeapChain) :=
  (c4_setProto_cases exHeapChain 2 10 (some 0) ⟨"C", none, true, [], []⟩ rfl).2.2
    (by decide) rfl (by decide)

/-!
C9 — `weakCollections.add` is an idempotent add: a collection already
present leaves the list unchanged, and the list never accumulates
duplicate entries.
-/

/-- C9: adding an already-present collection leaves the registry
membership unchanged, and `wcAdd` preserves duplicate-freeness. -/
theorem c9_wcAdd_idempotent (l : List Nat) (c : Nat) :
    (c ∈ l → wcAdd l c = l) ∧ (l.Nodup → (wcAdd l c).Nodup) := by
  constructor
  · intro hmem
    simp [wcAdd, hmem]
  · intro hnd
    by_cases hmem : c ∈ l
    · simpa [wcAdd, hmem] using hnd
    · simp [wcAdd, hmem, List.nodup_append, hnd]

/-- C9 witness: a registry already containing collection `5` is
unchanged by a second add, and stays duplicate-free. -/
theorem c9_wcAdd_idempotent_witness :
    wcAdd [5] 5 = [5] ∧ (wcAdd [5] 5).Nodup :=
  ⟨(c9_wcAdd_idempotent [5] 5).1 (by decide),
   (c9_wcAdd_idempotent [5] 5).2 (by decide)⟩

/-!
C10 — with no stored own `"__proto__"` property, `getOwnPropStr`
surfaces the prototype link (it is not absent: even a nil prototype
comes back as a typed-nil, non-nil interface value), while
`hasOwnPropertyStr` reports `false`.
-/

/-- C10: the `[[Prototype]]` pseudo-key is visible to own-property value
lookup but invisible to the own-property existence check. -/
theorem c10_proto_pseudo_key (h : Heap) (oid : Nat) (od : ObjData)
    (hod : lookupObj h oid = some od)
    (hnone : lookupVal od.values protoKey = none) :
    getOwnPropStr h oid protoKey = some (some (.plain (protoToValue od.prototype))) ∧
    hasOwnPropertyStr h oid protoKey = some false := by
  simp [getOwnPropStr, hasOwnPropertyStr, getOwnSlot, hod, hnone]

/-- C10 witness: on a concrete object with prototype `1` and empty
storage, `getOwnPropStr` yields the prototype object and
`hasOwnPropertyStr` yields `false`. -/
theorem c10_proto_pseudo_key_witness :
    getOwnPropStr exHeapProto 0 protoKey = some (some (.plain (.obj 1))) ∧
    hasOwnPropertyStr exHeapProto 0 protoKey = some false :=
  c10_proto_pseudo_key exHeapProto 0 ⟨"Object", some 1, true, [], []⟩ rfl rfl

/-!
C7 — `WeakMap.set(k, v)` obtains or lazily creates the key's registry,
stores `v` under the registry's token in the collection's storage, and
adds the collection to the registry's interest set, so `WeakMap.get(k)`
returns `v`.
-/

/-- C7: after `weakMap.set`, the key owns a registry whose token indexes
the stored value, the map's interest is registered, and `weakMap.get`
returns the value. -/
theorem c7_weakmap_set_get (st st' : WeakState) (wmId keyId : Nat) (v : Value)
    (hset : wmSet st wmId keyId v = some st') :
    ∃ r, assocFind st'.objWeak keyId = some (some r) ∧
      wmGet st' wmId keyId = some (some v) ∧
      wmId ∈ (assocFind st'.regs r).getD [] := by
  unfold wmSet getWeakCollRefs at hset
  cases hfind : assocFind st.objWeak keyId with
  | none => simp [hfind] at hset
  | some ro =>
    cases ro with
    | some r =>
      simp only [hfind] at hset
      obtain rfl := Option.some.injEq .. ▸ hset
      refine ⟨r, ?_, ?_, ?_⟩
      · simpa using hfind
      · simp [wmGet, hfind, assocFind_put_self]
      · simp [assocFind_put_self, mem_wcAdd_self]
    | none =>
      simp only [hfind] at hset
      obtain rfl := Option.some.injEq .. ▸ hset
      refine ⟨st.nextReg, ?_, ?_, ?_⟩
      · simp [assocFind_put_self]
      · simp [wmGet, assocFind_put_self]
      · simp [assocFind_put_self, mem_wcAdd_self]

/-- C7 witness: a concrete `set` on key object `3` followed by `get`
returns the stored value. -/
theorem c7_weakmap_set_get_witness :
    ∃ r, assocFind exWeakAfter.objWeak 3 = some (some r) ∧
      wmGet exWeakAfter 0 3 = some (some (.strV "v")) ∧
      0 ∈ (assocFind exWeakAfter.regs r).getD [] :=
  c7_weakmap_set_get exWeak exWeakAfter 0 3 (.strV "v") (by decide)

/-!
C2 — claimed: `put` on a non-extensible object with no own property
always rejects and never creates a new own property, regardless of the
prototype chain.  The code only checks extensibility when the prototype
chain yields no property at all: an inherited plain value or writable
data property makes `putStr` fall through and create a new own property
even on a non-extensible receiver.
-/

/-- C2 counterexample: object `0` is non-extensible and has no own
`"k"`, its prototype holds a plain (writable) `"k"`; `putStr` with
`throw = true` completes without a type error and creates a new own
property on `0`. -/
theorem c2_counterexample :
    putStr exHeapNonExt 5 0 "k" (.numV 2) true = some (.ok exHeapNonExtAfter) ∧
    hasOwnPropertyStr exHeapNonExtAfter 0 "k" = some true := by
  decide

/-- C2 amended: on a non-extensible object with no own property `k`
(`k` not the `__proto__` pseudo-key), `putStr` rejects when the
prototype chain yields no property or a non-writable one, invokes the
setter of an inherited accessor, but when the chain yields a writable
data property or a plain value it creates a new own property despite the
receiver being non-extensible. -/
theorem c2_nonextensible_put (h : Heap) (fuel oid : Nat) (k : String) (v : Value)
    (throw : Bool) (od : ObjData)
    (hod : lookupObj h oid = some od)
    (hext : od.extensible = false)
    (hown : lookupVal od.values k = none)
    (hk : k ≠ protoKey) :
    (od.prototype = none → putStr h fuel oid k v throw = some (.rejected h)) ∧
    (∀ pid, od.prototype = some pid → getPropStr h fuel pid k = some none →
      putStr h fuel oid k v throw = some (.rejected h)) ∧
    (∀ pid p, od.prototype = some pid →
      getPropStr h fuel pid k = some (some (.prop p)) → p.isWritable = false →
      putStr h fuel oid k v throw = some (.rejected h)) ∧
    (∀ pid p, od.prototype = some pid →
      getPropStr h fuel pid k = some (some (.prop p)) → p.isWritable = true →
      p.accessor = true →
      putStr h fuel oid k v throw = some (.setterCall h p.setterFunc)) ∧
    (∀ pid p, od.prototype = some pid →
      getPropStr h fuel pid k = some (some (.prop p)) → p.isWritable = true →
      p.accessor = false →
      putStr h fuel oid k v throw = some (.ok (addNewProp h oid od k v)) ∧
      hasOwnPropertyStr (addNewProp h oid od k v) oid k = some true) ∧
    (∀ pid w, od.prototype = some pid →
      getPropStr h fuel pid k = some (some (.plain w)) →
      putStr h fuel oid k v throw = some (.ok (addNewProp h oid od k v)) ∧
      hasOwnPropertyStr (addNewProp h oid od k v) oid k = some true) := by
  refine ⟨?_, ?_, ?_, ?_, ?_, ?_⟩
  · intro hpr
    simp [putStr, hod, hown, hk, hpr, hext]
  · intro pid hpr hchain
    simp [putStr, hod, hown, hk, hpr, hchain, hext]
  · intro pid p hpr hchain hw
    simp [putStr, hod, hown, hk, hpr, hchain, hw]
  · intro pid p hpr hchain hw hacc
    simp [putStr, hod, hown, hk, hpr, hchain, hw, hacc]
  · intro pid p hpr hchain hw hacc
    constructor
    · simp [putStr, hod, hown, hk, hpr, hchain, hw, hacc]
    · simp [hasOwnPropertyStr, addNewProp, updateObj, lookupObj, lookupVal,
        assocFind_put_self]
  · intro pid w hpr hchain
    constructor
    · simp [putStr, hod, hown, hk, hpr, hchain]
    · simp [hasOwnPropertyStr, addNewProp, updateObj, lookupObj, lookupVal,
        assocFind_put_self]

/-- C2 amended witness: the concrete inherited-plain-value case — the
prototype's `"k"` is found and the non-extensible receiver still gains
an own `"k"`. -/
theorem c2_nonextensible_put_witness :
    getPropStr exHeapNonExt 5 1 "k" = some (some (.plain (.numV 1))) ∧
    putStr exHeapNonExt 5 0 "k" (.numV 2) true =
      some (.ok (addNewProp exHeapNonExt 0 ⟨"Object", some 1, false, [], []⟩ "k" (.numV 2))) := by
  refine ⟨by decide, ?_⟩
  exact ((c2_nonextensible_put exHeapNonExt 5 0 "k" (.numV 2) true
    ⟨"Object", some 1, false, [], []⟩ rfl rfl rfl (by decide)).2.2.2.2.2
    1 (.numV 1) rfl (by decide)).1

/-!
C8 — claimed: every weak-collection operation given a non-object key
raises a type error immediately (no silent-failure mode) and stores
nothing.  `weakMapProto_set` passes the key through `r.toObject`, which
raises only for null/undefined and silently wraps any other primitive in
a fresh wrapper object — so a numeric key stores an entry without any
error.
-/

/-- C8: evaluating `weakMapProto_set` at the failing input — a numeric
key `5` raises no error and stores an entry (under a fresh wrapper
object's registry token), while a null key does raise a type error. -/
theorem c8_primitive_key_stored :
    weakMapProtoSet exWeakPrim 0 (.numV 5) (.strV "x") = .done exWeakPrimAfter ∧
    assocFind exWeakPrimAfter.maps 0 = some [(0, .strV "x")] ∧
    weakMapProtoSet exWeakPrim 0 .null (.strV "x") = .typeErrorKey := by
  decide

/-!
C6 — claimed: mutating the object after an enumeration sequence is
produced does not affect the items yielded by that sequence.  Only the
own-key *order* is snapshotted: property values are read live by
`objectPropIter.next`, so deleting (or redefining) a property does
change what an already-produced sequence yields.  Adding a fresh
property does not (it is absent from the snapshot).
-/

/-- C6 counterexample: delete `"a"` after producing a sequence; draining
the already-produced sequence against the mutated heap yields different
items than against the original heap. -/
theorem c6_counterexample :
    deleteStr exHeapEnum 0 "a" false = some (true, exHeapEnumDel) ∧
    consume exHeapEnumDel 5 (mkEnum exHeapEnum 0 true false) ≠
      consume exHeapEnum 5 (mkEnum exHeapEnum 0 true false) := by
  decide

/-- A non-recursive base run never hops, for any fuel. -/
theorem runBase_nonrec (h : Heap) (fuel oid : Nat) (names : List String) :
    runBase h false fuel oid names = ownItems h oid names := by
  cases fuel <;> simp [runBase]

/-- `ownItems` only depends on the slots of the listed names. -/
theorem ownItems_congr (h h' : Heap) (oid : Nat) (names : List String)
    (hlk : ∀ n ∈ names, lookupSlot h' oid n = lookupSlot h oid n) :
    ownItems h' oid names = ownItems h oid names := by
  induction names with
  | nil => rfl
  | cons n rest ih =>
    have hn := hlk n (by simp)
    have hrest : ∀ m ∈ rest, lookupSlot h' oid m = lookupSlot h oid m :=
      fun m hm => hlk m (by simp [hm])
    simp [ownItems, hn, ih hrest]

/-- `_put` never changes a prototype link: reads of `protoOf` are
unaffected at every object. -/
theorem protoOf_basePut (h : Heap) (oid : Nat) (k : String) (v : Value) (x : Nat) :
    protoOf (basePut h oid k v) x = protoOf h x := by
  unfold basePut
  cases hod : lookupObj h oid with
  | none => rfl
  | some od =>
    by_cases hx : x = oid
    · subst hx
      have hod' : assocFind h x = some od := hod
      simp [protoOf, updateObj, lookupObj, assocFind_put_self, hod']
    · simp [protoOf, updateObj, lookupObj, assocFind_put_ne _ _ _ _ hx]

/-- `_put` of `k` on `oid` leaves every other slot read unchanged. -/
theorem lookupSlot_basePut_other (h : Heap) (oid : Nat) (k : String) (v : Value)
    (x : Nat) (n : String) (hne : x ≠ oid ∨ n ≠ k) :
    lookupSlot (basePut h oid k v) x n = lookupSlot h x n := by
  unfold basePut
  cases hod : lookupObj h oid with
  | none => rfl
  | some od =>
    rcases hne with hx | hn
    · simp [lookupSlot, updateObj, lookupObj, assocFind_put_ne _ _ _ _ hx]
    · by_cases hx : x = oid
      · subst hx
        have hod' : assocFind h x = some od := hod
        simp [lookupSlot, updateObj, lookupObj, lookupVal, assocFind_put_self,
          hod', assocFind_put_ne _ _ _ _ hn]
      · simp [lookupSlot, updateObj, lookupObj, assocFind_put_ne _ _ _ _ hx]

/-- `_put` on `oid` leaves every other object's `propNames`
unchanged. -/
theorem propNamesOf_basePut_ne (h : Heap) (oid : Nat) (k : String) (v : Value)
    (x : Nat) (hx : x ≠ oid) :
    propNamesOf (basePut h oid k v) x = propNamesOf h x := by
  unfold basePut
  cases hod : lookupObj h oid with
  | none => rfl
  | some od => simp [propNamesOf, updateObj, lookupObj, assocFind_put_ne _ _ _ _ hx]

/-- Adding `k` on `oid` does not change a base run started at any level
`x` whose snapshot avoids `k` when `x` is `oid` itself, provided the
prototype chain walked from `x` terminates without revisiting `oid`
(which `setProto`'s cycle rejection guarantees on real heaps). -/
theorem runBase_basePut_avoid (h : Heap) (oid : Nat) (k : String) (v : Value)
    (recursive : Bool) :
    ∀ (fuel x : Nat) (names : List String),
      (x = oid → k ∉ names) →
      protoChainHas h fuel (protoOf h x) oid = some false →
      runBase (basePut h oid k v) recursive fuel x names =
        runBase h recursive fuel x names := by
  intro fuel
  induction fuel with
  | zero =>
    intro x names hnames _
    simp only [runBase]
    apply ownItems_congr
    intro n hn
    apply lookupSlot_basePut_other
    by_cases hx : x = oid
    · exact Or.inr fun hnk => (hnames hx) (hnk ▸ hn)
    · exact Or.inl hx
  | succ f ih =>
    intro x names hnames hchain
    have hown : ownItems (basePut h oid k v) x names = ownItems h x names := by
      apply ownItems_congr
      intro n hn
      apply lookupSlot_basePut_other
      by_cases hx : x = oid
      · exact Or.inr fun hnk => (hnames hx) (hnk ▸ hn)
      · exact Or.inl hx
    simp only [runBase, hown, protoOf_basePut]
    cases hpr : protoOf h x with
    | none => rfl
    | some pid =>
      rw [hpr] at hchain
      by_cases hpid : pid = oid
      · subst hpid
        simp [protoChainHas] at hchain
      · have hchain' : protoChainHas h f (protoOf h pid) oid = some false := by
          simpa [protoChainHas, hpid] using hchain
        dsimp only
        rw [propNamesOf_basePut_ne h oid k v pid hpid,
          ih pid (propNamesOf h pid) (fun hcon => absurd hcon hpid) hchain']

/-- C6 amended: a sequence snapshots the own-key order at production
time; adding a brand-new own property afterwards (via `_put`) does not
affect what the already-produced sequence yields — recursive or not,
as long as the receiver's prototype chain terminates without cycling
back through it, which `setProto` enforces — while a subsequently
produced sequence sees the new key appended to the order.  Deleting a
property does affect an already-produced sequence (the counterexample),
and so does redefining one: the live value read makes the produced
sequence yield the redefined value, witnessed by the concrete `putStr`
overwrite in the last conjunct. -/
theorem c6_snapshot_addition (h : Heap) (oid : Nat) (od : ObjData) (k : String)
    (v : Value) (all recursive : Bool) (fuel : Nat)
    (hod : lookupObj h oid = some od)
    (hkv : lookupVal od.values k = none)
    (hk : k ∉ od.propNames)
    (hchain : protoChainHas h fuel (protoOf h oid) oid = some false) :
    consume (basePut h oid k v) fuel (mkEnum h oid all recursive) =
      consume h fuel (mkEnum h oid all recursive) ∧
    propNamesOf (basePut h oid k v) oid = od.propNames ++ [k] ∧
    (putStr exHeapEnum 5 0 "a" (.numV 2) false = some (.ok exHeapEnumRedef) ∧
      consume exHeapEnumRedef 5 (mkEnum exHeapEnum 0 true false) ≠
        consume exHeapEnum 5 (mkEnum exHeapEnum 0 true false)) := by
  refine ⟨?_, ?_, by decide⟩
  · have hsnap : propNamesOf h oid = od.propNames := by
      simp [propNamesOf, hod]
    simp only [consume, mkEnum]
    rw [runBase_basePut_avoid h oid k v recursive fuel oid (propNamesOf h oid)
      (fun _ => by rw [hsnap]; exact hk) hchain]
  · have hod' : assocFind h oid = some od := hod
    simp [basePut, lookupObj, hod', hkv, propNamesOf, updateObj, assocFind_put_self]

/-- C6 amended witness: adding `"b"` to a concrete object with a
one-property prototype leaves the already-produced recursive sequence's
items unchanged, appends `"b"` to the own-key order seen by later
sequences, and the concrete redefinition is observed by an
already-produced sequence. -/
theorem c6_snapshot_addition_witness :
    consume (basePut exHeapFrozenShadow 0 "b" (.numV 2)) 5
        (mkEnum exHeapFrozenShadow 0 true true) =
      consume exHeapFrozenShadow 5 (mkEnum exHeapFrozenShadow 0 true true) ∧
    propNamesOf (basePut exHeapFrozenShadow 0 "b" (.numV 2)) 0 = ["b"] ∧
    (putStr exHeapEnum 5 0 "a" (.numV 2) false = some (.ok exHeapEnumRedef) ∧
      consume exHeapEnumRedef 5 (mkEnum exHeapEnum 0 true false) ≠
        consume exHeapEnum 5 (mkEnum exHeapEnum 0 true false)) :=
  c6_snapshot_addition exHeapFrozenShadow 0 ⟨"Object", some 1, true, [], []⟩
    "b" (.numV 2) true true 5 rfl rfl (by decide) (by decide)

/-!
C3 — `defineOwnProperty` on an existing non-configurable, non-writable
data property: succeeds (changing nothing) when the descriptor supplies
an identical value and no attribute change, rejects whenever it supplies
a different value or sets `writable = true`.
-/

/-- C3: on a frozen (non-configurable, non-writable) data property
holding `v`, `_defineOwnProperty` returns the property unchanged for a
same-value, attribute-preserving descriptor; any descriptor supplying a
value not identical to `v`, or setting `writable = true`, is rejected no
matter what else it contains. -/
theorem c3_defineOwn_frozen (ext : Bool) (p : ValueProperty) (v : Value)
    (descr : PropertyDescriptor)
    (hconf : p.configurable = false) (hwr : p.writable = false)
    (hacc : p.accessor = false) (hval : p.value = some v)
    (hgf : p.getterFunc = none) (hsf : p.setterFunc = none) :
    (descr.value = some v → descr.getter = none → descr.setter = none →
      descr.configurable ≠ .flagTrue →
      (descr.enumerable = .notSet ∨ descr.enumerable.toBool = p.enumerable) →
      descr.writable ≠ .flagTrue →
      _defineOwnProperty ext (some (.prop p)) descr = .ok (.prop p)) ∧
    (∀ v', descr.value = some v' → v' ≠ v →
      _defineOwnProperty ext (some (.prop p)) descr = .rejected) ∧
    (descr.writable = .flagTrue →
      _defineOwnProperty ext (some (.prop p)) descr = .rejected) := by
  obtain ⟨pv, pw, pe, pc, pa, pg, ps⟩ := p
  obtain ⟨dv, dw, dc, de, dg, ds⟩ := descr
  simp only at hconf hwr hacc hval hgf hsf
  subst hconf hwr hacc hval hgf hsf
  refine ⟨?_, ?_, ?_⟩
  · intro hdv hdg hds hdc hde hdw
    simp only at hdv hdg hds hde
    subst hdv hdg hds
    cases dc <;> cases dw <;> cases de <;>
      simp_all [_defineOwnProperty, applyDescriptor, reifySlot, descrAccessorObj,
        convAccessor, Flag.toBool, valueMismatch, sameVal]
  · intro v' hdv hne
    simp only at hdv
    subst hdv
    have hmis : (v' == v) = false := by
      simp [hne]
    simp only [_defineOwnProperty, reifySlot]
    split_ifs <;>
      simp_all [valueMismatch, sameVal]
  · intro hdw
    simp only at hdw
    subst hdw
    simp only [_defineOwnProperty, reifySlot]
    split_ifs <;>
      simp_all [valueMismatch, sameVal]

/-- C3 witness: redefining the concrete frozen property with the
identical value `1` and no attribute changes succeeds and returns the
property unchanged. -/
theorem c3_defineOwn_frozen_witness :
    _defineOwnProperty true (some (.prop exFrozenProp))
      ⟨some (.numV 1), .notSet, .notSet, .notSet, none, none⟩ =
      .ok (.prop exFrozenProp) :=
  (c3_defineOwn_frozen true exFrozenProp (.numV 1)
    ⟨some (.numV 1), .notSet, .notSet, .notSet, none, none⟩
    rfl rfl rfl rfl rfl rfl).1 rfl rfl rfl (by decide) (Or.inl rfl) (by decide)

/-!
C1 — after `put(o, k, v, false)` succeeds by storing `v` (the `.ok`
outcome: every path of `putStr` that completes an ordinary property
write), `get(o, k)` returns `v`; when `k` is only defined as a
non-writable inherited data property, the put is rejected and the heap —
hence the value observed by `get` — is unchanged.  Setter invocation and
the `__proto__` pseudo-key mutation are separate outcomes of `putStr`
(they do not store `v` as a property).
-/

/-- The `__proto__` branch of `putStr` never produces an ordinary-store
`.ok` outcome. -/
theorem putProtoResult_ne_ok (h : Heap) (oid : Nat) (od : ObjData) (fuel : Nat)
    (pr : Option Nat) (h' : Heap) :
    putProtoResult h oid od fuel pr ≠ some (.ok h') := by
  unfold putProtoResult
  split <;> simp

/-- Every `.ok` outcome of `putStr` leaves `v` stored under `k` on the
receiver: as a plain value or as the overwritten data property. -/
theorem putStr_ok_stored (h h' : Heap) (fuel oid : Nat) (k : String) (v : Value)
    (throw : Bool) (hput : putStr h fuel oid k v throw = some (.ok h')) :
    ∃ od', lookupObj h' oid = some od' ∧
      (lookupVal od'.values k = some (.plain v) ∨
        ∃ p, lookupVal od'.values k = some (.prop p) ∧ p.value = some v ∧
          p.accessor = false) := by
  unfold putStr at hput
  split at hput
  · exact absurd hput (by simp)
  next od hod =>
    split at hput
    next p hv =>
      split at hput
      next hw =>
        split at hput
        next ha => exact absurd hput (by simp)
        next ha =>
          simp only [Option.some.injEq, PutResult.ok.injEq] at hput
          subst hput
          exact ⟨_, assocFind_put_self _ _ _,
            Or.inr ⟨_, assocFind_put_self _ _ _, rfl, by simpa using ha⟩⟩
      next hw => exact absurd hput (by simp)
    next w hv =>
      simp only [Option.some.injEq, PutResult.ok.injEq] at hput
      subst hput
      exact ⟨_, assocFind_put_self _ _ _, Or.inl (assocFind_put_self _ _ _)⟩
    next hv =>
      split at hput
      next hkp =>
        split at hput
        · exact absurd hput (putProtoResult_ne_ok _ _ _ _ _ _)
        · exact absurd hput (putProtoResult_ne_ok _ _ _ _ _ _)
        · exact absurd hput (by simp)
      next hkp =>
        split at hput
        next hchain => exact absurd hput (by simp)
        next pprop hchain =>
          split at hput
          next hw =>
            split at hput
            next ha => exact absurd hput (by simp)
            next ha =>
              simp only [Option.some.injEq, PutResult.ok.injEq] at hput
              subst hput
              exact ⟨_, assocFind_put_self _ _ _, Or.inl (assocFind_put_self _ _ _)⟩
          next hw => exact absurd hput (by simp)
        next w hchain =>
          simp only [Option.some.injEq, PutResult.ok.injEq] at hput
          subst hput
          exact ⟨_, assocFind_put_self _ _ _, Or.inl (assocFind_put_self _ _ _)⟩
        next hchain =>
          split at hput
          next hext =>
            simp only [Option.some.injEq, PutResult.ok.injEq] at hput
            subst hput
            exact ⟨_, assocFind_put_self _ _ _, Or.inl (assocFind_put_self _ _ _)⟩
          next hext => exact absurd hput (by simp)

/-- An own property is found by `getPropStr` with any fuel (no prototype
hop is needed). -/
theorem getPropStr_own (h : Heap) (gfuel oid : Nat) (k : String) (od : ObjData)
    (slot : SlotVal) (hod : lookupObj h oid = some od)
    (hv : lookupVal od.values k = some slot) :
    getPropStr h gfuel oid k = some (some slot) := by
  cases gfuel <;> simp [getPropStr, hod, getOwnSlot, hv]

/-- C1: a successful store makes a subsequent `getStr` return the stored
value, and a key shadowed only by a non-writable inherited data property
makes `putStr` reject with the heap unchanged (the `.rejected`
constructor carries the original heap `h`). -/
theorem c1_put_get (h : Heap) (fuel oid : Nat) (k : String) (v : Value)
    (throw : Bool) :
    (∀ h', putStr h fuel oid k v throw = some (.ok h') →
      ∀ gfuel, getStr h' gfuel oid k = some (.val (some v))) ∧
    (∀ od pid p, lookupObj h oid = some od → lookupVal od.values k = none →
      k ≠ protoKey → od.prototype = some pid →
      getPropStr h fuel pid k = some (some (.prop p)) →
      p.accessor = false → p.writable = false → p.setterFunc = none →
      putStr h fuel oid k v throw = some (.rejected h)) := by
  constructor
  · intro h' hput gfuel
    obtain ⟨od', hod', hstore⟩ := putStr_ok_stored h h' fuel oid k v throw hput
    rcases hstore with hplain | ⟨p, hp, hpv, hpa⟩
    · simp [getStr, getPropStr_own h' gfuel oid k od' _ hod' hplain]
    · simp [getStr, getPropStr_own h' gfuel oid k od' _ hod' hp, hpa, hpv]
  · intro od pid p hod hown hk hpr hchain hacc hwr hsf
    simp [putStr, hod, hown, hk, hpr, hchain, ValueProperty.isWritable, hwr, hsf]

/-- C1 witness: a concrete store of `"x" ↦ 7` makes `getStr` return `7`,
and an assignment shadowed by a concrete frozen inherited `"k"` is
rejected with the heap unchanged. -/
theorem c1_put_get_witness :
    getStr exHeapEmptyAfter 3 0 "x" = some (.val (some (.numV 7))) ∧
    putStr exHeapFrozenShadow 5 0 "k" (.numV 9) false =
      some (.rejected exHeapFrozenShadow) :=
  ⟨(c1_put_get exHeapEmpty 5 0 "x" (.numV 7) false).1 exHeapEmptyAfter (by decide) 3,
   (c1_put_get exHeapFrozenShadow 5 0 "k" (.numV 9) false).2
     ⟨"Object", some 1, true, [], []⟩ 1
     ⟨some (.numV 1), false, true, false, false, none, none⟩
     rfl rfl (by decide) rfl (by decide) rfl rfl rfl⟩

/-!
C5 — a single enumeration sequence never yields a name twice (the
filter's seen-set dedups shadowed ancestors), and the own enumerable
keys come first, in first-insertion (`propNames`) order, before any
inherited ones.
-/

/-- Every item yielded by the filter has a name outside the incoming
seen-set. -/
theorem filterStream_not_mem_seen (all : Bool) :
    ∀ (xs : List PropIterItem) (seen : List String) (i : PropIterItem),
      i ∈ filterStream all seen xs → i.name ∉ seen := by
  intro xs
  induction xs with
  | nil => intro seen i hi; simp [filterStream] at hi
  | cons x rest ih =>
    intro seen i hi
    simp only [filterStream] at hi
    split_ifs at hi with h1 h2
    · exact ih seen i hi
    · intro hmem
      exact ih (x.name :: seen) i hi (List.mem_cons_of_mem _ hmem)
    · rcases List.mem_cons.mp hi with rfl | hi'
      · exact h1
      · intro hmem
        exact ih (x.name :: seen) i hi' (List.mem_cons_of_mem _ hmem)

/-- The names yielded by the filter are pairwise distinct. -/
theorem filterStream_names_nodup (all : Bool) :
    ∀ (xs : List PropIterItem) (seen : List String),
      ((filterStream all seen xs).map PropIterItem.name).Nodup := by
  intro xs
  induction xs with
  | nil => intro seen; simp [filterStream]
  | cons x rest ih =>
    intro seen
    simp only [filterStream]
    split_ifs with h1 h2
    · exact ih seen
    · exact ih _
    · simp only [List.map_cons, List.nodup_cons]
      refine ⟨?_, ih _⟩
      intro hmem
      obtain ⟨i, hi, hni⟩ := List.mem_map.mp hmem
      exact filterStream_not_mem_seen all rest (x.name :: seen) i hi (by simp [hni])

/-- The filter distributes over stream concatenation, threading the
seen-set accumulated on the first part into the second. -/
theorem filterStream_append (all : Bool) :
    ∀ (xs ys : List PropIterItem) (seen : List String),
      filterStream all seen (xs ++ ys) =
        filterStream all seen xs ++ filterStream all (seenAfter seen xs) ys := by
  intro xs
  induction xs with
  | nil => intro ys seen; simp [filterStream, seenAfter]
  | cons x rest ih =>
    intro ys seen
    simp only [List.cons_append, filterStream, seenAfter]
    split_ifs with h1 h2 <;> simp [ih]

/-- Filtering only drops items: the yielded names form a subsequence of
the input names. -/
theorem filterStream_names_sublist (all : Bool) :
    ∀ (xs : List PropIterItem) (seen : List String),
      ((filterStream all seen xs).map PropIterItem.name).Sublist
        (xs.map PropIterItem.name) := by
  intro xs
  induction xs with
  | nil => intro seen; simp [filterStream]
  | cons x rest ih =>
    intro seen
    simp only [filterStream, List.map_cons]
    split_ifs with h1 h2
    · exact (ih seen).cons _
    · exact (ih _).cons _
    · exact (ih _).cons₂ _

/-- The own-key pass yields names in snapshot order (a subsequence of
the snapshot). -/
theorem ownItems_names_sublist (h : Heap) (oid : Nat) :
    ∀ names : List String,
      ((ownItems h oid names).map PropIterItem.name).Sublist names := by
  intro names
  induction names with
  | nil => simp [ownItems]
  | cons n rest ih =>
    cases hl : lookupSlot h oid n with
    | some slot =>
      simp only [ownItems, hl, List.map_cons]
      exact ih.cons₂ _
    | none =>
      simp only [ownItems, hl]
      exact ih.cons _

/-- C5: for every object, flag combination and fuel, one `enumerate`
sequence yields pairwise-distinct names, and it decomposes as the
filtered own items — whose names follow the receiver's `propNames`
insertion order — followed by the inherited items. -/
theorem c5_enumerate_nodup_order (h : Heap) (oid : Nat) (all recursive : Bool)
    (fuel : Nat) :
    ((enumerateRun h fuel oid all recursive).map PropIterItem.name).Nodup ∧
    ∃ inherited,
      enumerateRun h fuel oid all recursive =
        filterStream all [] (ownItems h oid (propNamesOf h oid)) ++ inherited ∧
      ((filterStream all [] (ownItems h oid (propNamesOf h oid))).map
        PropIterItem.name).Sublist (propNamesOf h oid) := by
  constructor
  · exact filterStream_names_nodup all _ []
  · have hsub :=
      (filterStream_names_sublist all (ownItems h oid (propNamesOf h oid)) []).trans
        (ownItems_names_sublist h oid (propNamesOf h oid))
    cases fuel with
    | zero =>
      refine ⟨[], ?_, hsub⟩
      simp [enumerateRun, consume, mkEnum, runBase]
    | succ f =>
      have heq : enumerateRun h (Nat.succ f) oid all recursive =
          filterStream all [] (ownItems h oid (propNamesOf h oid)) ++
            filterStream all (seenAfter [] (ownItems h oid (propNamesOf h oid)))
              (if recursive then
                match protoOf h oid with
                | some pid => runBase h recursive f pid (propNamesOf h pid)
                | none => []
              else []) := by
        simp only [enumerateRun, consume, mkEnum, runBase]
        exact filterStream_append all _ _ []
      exact ⟨_, heq, hsub⟩

end Goja
